import Mathlib

/-!
Verification of the bors automated-merge integrator (bors.py, github.py).

The Python sources are shallowly embedded: comment bodies and SHAs are
lists of characters, the regular expressions of the source are translated
to explicit character-list scanners with the same backtracking semantics,
remote state (branch tips, commit parents) is an explicit structure, and
the fallible approval-list computation returns an `Except` (the source can
raise `NameError`).  Timestamps are modelled as naturals; the source sorts
comments by their ISO-8601 `created_at` strings, whose lexicographic order
is chronological order.
-/

namespace Bors

/-- Characters accepted by the `[a-z0-9]` classes of the approval regexes. -/
def isShaChar (c : Char) : Bool :=
  ('a' ≤ c && c ≤ 'z') || ('0' ≤ c && c ≤ '9')

/-- Python `\s` (ASCII range), as used by the `\s+` in the approval regex. -/
def isSpaceChar (c : Char) : Bool :=
  c == ' ' || c == '\t' || c == '\n' || c == '\x0d' || c == '\x0b' || c == '\x0c'

/-- The `[a-zA-Z0-9_-]` class of the `r=<name>` regexes. -/
def isNameChar (c : Char) : Bool :=
  c.isAlphanum || c == '_' || c == '-'

/-- Python `\w` (ASCII range), used for the `\b` boundaries of the priority regex. -/
def isWordChar (c : Char) : Bool :=
  c.isAlphanum || c == '_'

/-- A comment: `(created_at, author login, body)`, as the tuples built in
`get_pull_comments` / `get_head_comments` (bors.py:285-307). -/
structure Comment where
  date : Nat
  author : String
  body : List Char
  deriving DecidableEq

/-- The observable inputs of one pull request, as loaded by `PullReq.__init__`
(bors.py:224-267): configuration lists, head SHA, closedness, the tri-state
mergeability hint, the self-authored status states on the head SHA, and the
two comment streams (head comments already filtered to reviewers and to
unedited comments, as in `get_head_comments`). -/
structure PRState where
  user : String
  reviewers : List String
  approval_tokens : List (List Char)
  disapproval_tokens : List (List Char)
  ignored_users : List String
  sha : String
  num : Nat
  target_ref : String
  test_ref : String
  ref : String
  closed : Bool
  mergeable : Option Bool
  statuses : List String
  head_comments : List Comment
  pull_comments : List Comment
  no_auto_merge : Bool
  delete_source_branch : Bool

/-- `STATE_BAD` (bors.py:105). -/
def STATE_BAD : Int := -2
/-- `STATE_STALE` (bors.py:106). -/
def STATE_STALE : Int := -1
/-- `STATE_DISCUSSING` (bors.py:107). -/
def STATE_DISCUSSING : Int := 0
/-- `STATE_UNREVIEWED` (bors.py:108). -/
def STATE_UNREVIEWED : Int := 1
/-- `STATE_APPROVED` (bors.py:109). -/
def STATE_APPROVED : Int := 2
/-- `STATE_PENDING` (bors.py:110). -/
def STATE_PENDING : Int := 3
/-- `STATE_TESTED` (bors.py:111). -/
def STATE_TESTED : Int := 4
/-- `STATE_CLOSED` (bors.py:112). -/
def STATE_CLOSED : Int := 5

/-- The compiled regex `rec = ^(?:tok1|tok2|...)\s+([a-z0-9]{7,40})` of
`approval_list` / `disapproval_list` (bors.py:323, 358), applied with
`re.match`: the alternation tries the tokens in order with backtracking,
`\s+` takes the maximal whitespace run (no interaction with the following
class, which is disjoint), and the greedy `{7,40}` captures at most 40
characters of the maximal `[a-z0-9]` run, requiring at least 7.  Returns
the captured group. -/
def tokenShaCap1 (t body : List Char) : Option (List Char) :=
  if t.isPrefixOf body then
    let rest := body.drop t.length
    let ws := rest.takeWhile isSpaceChar
    if ws.isEmpty then none
    else
      let run := (rest.drop ws.length).takeWhile isShaChar
      if 7 ≤ run.length then some (run.take 40) else none
  else none

/-- The full alternation: the first token whose alternative matches wins,
as in the compiled regex. -/
def tokenShaCapture (tokens : List (List Char)) (body : List Char) : Option (List Char) :=
  tokens.findSome? (fun t => tokenShaCap1 t body)

/-- `re.match(r"^r=([a-zA-Z0-9_-]+)", c)` of bors.py:332: the greedy group
is the maximal run of name characters after `r=`. -/
def rEqualsName (body : List Char) : Option String :=
  match body with
  | 'r' :: '=' :: rest =>
    let run := rest.takeWhile isNameChar
    if run.isEmpty then none else some (String.mk run)
  | _ => none

/-- Whether `re.match(r"^r=([a-zA-Z0-9_-]+) ([a-z0-9]+)", c)` of bors.py:342
succeeds: `r=`, a maximal nonempty name run, a single literal space, then at
least one `[a-z0-9]` character.  (The name class cannot absorb the space, so
no backtracking arises.) -/
def rEqualsNameSha (body : List Char) : Bool :=
  match body with
  | 'r' :: '=' :: rest =>
    let run := rest.takeWhile isNameChar
    if run.isEmpty then false
    else
      match rest.drop run.length with
      | ' ' :: r2 => !(r2.takeWhile isShaChar).isEmpty
      | _ => false
  | _ => false

/-- `PullReq.approval_list` (bors.py:322-342).  Four comprehensions are
concatenated: (1) head comments starting with an approval token, by author;
(2) head comments matching `r=<name>`, by name; (3) pull comments matching
an approval token plus a SHA prefix of `head_sha`, from reviewers, by
author; (4) head comments matching `r=<name> <sha>` — whose guard
`u in self.reviewers` reads the variable `u`, which is unbound in that
comprehension's scope, so under Python 3 the whole computation raises
`NameError` as soon as one head comment matches that pattern.  The raise is
modelled as `Except.error ()`. -/
def approval_list (s : PRState) : Except Unit (List String) :=
  let viaTokens :=
    (s.head_comments.filter
      (fun c => s.approval_tokens.any (fun t => t.isPrefixOf c.body))).map
      (fun c => c.author)
  let viaRName := s.head_comments.filterMap (fun c => rEqualsName c.body)
  let viaPullSha := s.pull_comments.filterMap (fun c =>
    match tokenShaCapture s.approval_tokens c.body with
    | some x =>
      if s.reviewers.contains c.author && x.isPrefixOf s.sha.data then
        some c.author
      else none
    | none => none)
  if s.head_comments.any (fun c => rEqualsNameSha c.body) then Except.error ()
  else Except.ok (viaTokens ++ viaRName ++ viaPullSha)

/-- `PullReq.disapproval_list` (bors.py:357-367): the two comprehensions,
symmetric to rules (1) and (3) of `approval_list`; no unbound variable. -/
def disapproval_list (s : PRState) : List String :=
  (s.head_comments.filter
    (fun c => s.disapproval_tokens.any (fun t => t.isPrefixOf c.body))).map
    (fun c => c.author)
  ++ s.pull_comments.filterMap (fun c =>
    match tokenShaCapture s.disapproval_tokens c.body with
    | some x =>
      if s.reviewers.contains c.author && x.isPrefixOf s.sha.data then
        some c.author
      else none
    | none => none)

/-- `PullReq.count_retries` (bors.py:369-371): head comments whose body
starts with `@<gh_user>: retry`. -/
def count_retries (s : PRState) : Nat :=
  (s.head_comments.filter
    (fun c => ("@" ++ s.user ++ ": retry").data.isPrefixOf c.body)).length

/-- `PullReq.count_failures` (bors.py:414-415). -/
def count_failures (s : PRState) : Nat :=
  (s.statuses.filter (fun c => c == "failure")).length

/-- `PullReq.count_successes` (bors.py:417-418). -/
def count_successes (s : PRState) : Nat :=
  (s.statuses.filter (fun c => c == "success")).length

/-- `PullReq.count_pendings` (bors.py:420-421). -/
def count_pendings (s : PRState) : Nat :=
  (s.statuses.filter (fun c => c == "pending")).length

/-- `PullReq.count_errors` (bors.py:423-424). -/
def count_errors (s : PRState) : Nat :=
  (s.statuses.filter (fun c => c == "error")).length

/-- Stable insertion of a comment into a date-sorted list: the new comment
goes after every comment whose date is not greater, matching the stability
of Python's `sorted` (bors.py:311). -/
def insertByDate (c : Comment) : List Comment → List Comment
  | [] => [c]
  | d :: ds => if c.date ≤ d.date then c :: d :: ds else d :: insertByDate c ds

/-- Stable sort by `created_at`, processing the list left to right, as
`sorted(a, key=lambda c: c[0])` (bors.py:311). -/
def sortByDate (l : List Comment) : List Comment :=
  l.foldl (fun acc c => insertByDate c acc) []

/-- `PullReq.all_comments` (bors.py:309-313): head comments then pull
comments, sorted by date, then filtered against the ignored-users list. -/
def all_comments (s : PRState) : List Comment :=
  (sortByDate (s.head_comments ++ s.pull_comments)).filter
    (fun c => !(s.ignored_users.contains c.author))

/-- `PullReq.current_state` (bors.py:464-491).  `approval_list` can raise
(see its docstring); the conditions before it are evaluated first, exactly
as in the source, so the error only surfaces when control reaches the
approval test. -/
def current_state (s : PRState) : Except Unit Int :=
  if s.closed then Except.ok STATE_CLOSED
  else if count_errors s + count_failures s > count_retries s then Except.ok STATE_BAD
  else if (disapproval_list s).length ≠ 0 then Except.ok STATE_BAD
  else if count_successes s ≠ 0 then Except.ok STATE_TESTED
  else if s.mergeable = some false then Except.ok STATE_STALE
  else
    match approval_list s with
    | Except.error e => Except.error e
    | Except.ok al =>
      if al.length ≠ 0 then
        if count_pendings s ≤ count_retries s then Except.ok STATE_APPROVED
        else Except.ok STATE_PENDING
      else if (all_comments s).length ≠ 0 then Except.ok STATE_DISCUSSING
      else Except.ok STATE_UNREVIEWED

/-- Integer value of a digit run with an optional leading minus, as
`int(m.group(1))` on the `(-?\d+)` capture (bors.py:349). -/
def intOfDigits (neg : Bool) (ds : List Char) : Int :=
  let n : Nat := ds.foldl (fun a c => a * 10 + (c.toNat - 48)) 0
  if neg then -(n : Int) else (n : Int)

/-- One anchored attempt of `\bp=(-?\d+)\b` at the current position
(bors.py:347): `prev` is the character before the position (`none` at the
start of the string).  The first `\b` requires `prev` to be a non-word
character; the greedy `\d+` takes the maximal digit run and the final `\b`
requires the following character to be non-word (backtracking inside the
run cannot create a boundary between two digits). -/
def pTokenAt (prev : Option Char) (l : List Char) : Option Int :=
  match l with
  | 'p' :: '=' :: r =>
    if (match prev with | none => false | some c => isWordChar c) then none
    else
      let negr : Bool × List Char :=
        match r with
        | '-' :: r3 => (true, r3)
        | _ => (false, r)
      let ds := negr.2.takeWhile Char.isDigit
      if ds.isEmpty then none
      else
        match negr.2.drop ds.length with
        | [] => some (intOfDigits negr.1 ds)
        | ch :: _ => if isWordChar ch then none else some (intOfDigits negr.1 ds)
  | _ => none

/-- `re.search(r"\bp=(-?\d+)\b", c)` (bors.py:347): try the anchored match
at each position left to right, returning the first capture. -/
def searchPToken : Option Char → List Char → Option Int
  | _, [] => none
  | prev, ch :: rest =>
    match pTokenAt prev (ch :: rest) with
    | some v => some v
    | none => searchPToken (some ch) rest

/-- `PullReq.priority` (bors.py:344-350): fold over the head comments,
starting from 0 and taking the maximum of each comment's first
`p=<signed-integer>` token. -/
def priority (s : PRState) : Int :=
  s.head_comments.foldl
    (fun p c =>
      match searchPToken none c.body with
      | some v => max p v
      | none => p) 0

/-- `PullReq.merge_allowed` (bors.py:426-434): when `no_auto_merge` is
configured, require a pull comment from a reviewer matching
`^@<gh_user>:{0,1} merge`. -/
def mergeCommentMatch (user : String) (body : List Char) : Bool :=
  let pre := '@' :: user.data
  if pre.isPrefixOf body then
    let r := body.drop pre.length
    (" merge").data.isPrefixOf r ||
      (match r with
       | ':' :: r2 => (" merge").data.isPrefixOf r2
       | _ => false)
  else false

/-- `PullReq.merge_allowed` (bors.py:426-434). -/
def merge_allowed (s : PRState) : Bool :=
  if s.no_auto_merge then
    ((s.pull_comments.filter
      (fun c => mergeCommentMatch s.user c.body && s.reviewers.contains c.author)).length) > 0
  else true

/-- The remote git state read through the API: branch tips
(`git().refs().heads(ref).get()`) and commit parents
(`git().commits(sha).get()["parents"]`). -/
structure GitState where
  tip : String → String
  parents : String → List String

/-- `PullReq.fresh` (bors.py:568-585): the candidate commit has exactly two
parents, the current target tip is among them, and the head SHA is among
them (two membership tests, in source order). -/
def fresh (g : GitState) (s : PRState) (mergeSha : String) : Bool :=
  let targetSha := g.tip s.target_ref
  let testParents := g.parents mergeSha
  testParents.length == 2 && testParents.contains targetSha &&
    testParents.contains s.sha

/-- The two possible outcomes of the `STATE_PENDING` branch of
`try_advance` before any CI query (bors.py:608-624): either the candidate
(the tip of `test_ref`) is fresh and CI is consulted on it, or the branch
posts a staleness comment, resets `test_ref` and performs a fresh trial
merge. -/
inductive PendingStep where
  | consultCI (candidate : String)
  | restartTrialMerge
  deriving DecidableEq

/-- The `STATE_PENDING` branch of `PullReq.try_advance` up to the CI query
(bors.py:608-624): read the tip of `test_ref`, take it as `merge_sha`, and
consult CI exactly when `fresh()` holds. -/
def tryAdvancePending (g : GitState) (s : PRState) : PendingStep :=
  let testSha := g.tip s.test_ref
  if fresh g s testSha then PendingStep.consultCI testSha
  else PendingStep.restartTrialMerge

/-- Remote writes performed by the `STATE_TESTED` branch of `try_advance`
(bors.py:544-566, 699-713).  `closePull` models the remote client's
close-a-pull capability; it is part of the action alphabet so that its
absence from a trace is expressible. -/
inductive Action where
  | patchRef (ref : String) (sha : String) (force : Bool)
  | addComment (sha : String)
  | deleteRef (ref : String)
  | setError
  | closePull (num : Nat)
  | resetTestRef
  | remerge
  deriving DecidableEq

/-- `PullReq.advance_target_ref_to_test` (bors.py:544-566): non-force patch
of `target_ref` to the candidate; on success a comment, an attempted
deletion of `test_ref` (failure swallowed) and, if configured, of the
source branch; on failure a comment and an `error` self-status.
`patchOk` abstracts whether the non-force ref update is accepted. -/
def advance_target_ref_to_test (s : PRState) (mergeSha : String) (patchOk : Bool) :
    List Action :=
  if patchOk then
    [Action.patchRef s.target_ref mergeSha false, Action.addComment s.sha,
     Action.deleteRef s.test_ref]
    ++ (if s.delete_source_branch then [Action.deleteRef s.ref] else [])
  else
    [Action.patchRef s.target_ref mergeSha false, Action.addComment s.sha,
     Action.setError]

/-- The `STATE_TESTED` branch of `PullReq.try_advance` (bors.py:699-713):
no-op unless `merge_allowed`; land via `advance_target_ref_to_test` when
fresh; otherwise comment, reset `test_ref` and re-merge. -/
def tryAdvanceTested (g : GitState) (s : PRState) (mergeSha : String) (patchOk : Bool) :
    List Action :=
  if !(merge_allowed s) then []
  else if fresh g s mergeSha then advance_target_ref_to_test s mergeSha patchOk
  else [Action.addComment s.sha, Action.resetTestRef, Action.remerge]

/-- One buildbot build as kept in `BuildBot.revs` (bors.py:136-145):
the `results` code when present, and the build number used in the
status-detail URL. -/
structure Build where
  results : Option Nat
  number : Nat

/-- The buildbot backend: base URL, configured builder list, and the
per-revision builder-indexed build map built by `get_status`
(`none` when the revision is unknown). -/
structure BuildBotState where
  url : String
  builders : List String
  revs : String → Option (String → Option Build)

/-- The status-detail URL `"%s/builders/%s/builds/%s"` (bors.py:193-194). -/
def buildUrl (bb : BuildBotState) (builder : String) (b : Build) : String :=
  bb.url ++ "/builders/" ++ builder ++ "/builds/" ++ toString b.number

/-- The `results` code of the build recorded for a builder on a revision,
`none` when the builder is absent or its build carries no `results`. -/
def resultOf (m : String → Option Build) (builder : String) : Option Nat :=
  match m builder with
  | some b => b.results
  | none => none

/-- The bucket comprehension of `BuildBot.test_status` (bors.py:180-202)
for one result code: the loop appends each builder's URL to exactly one of
the four lists, so each list equals a `filterMap` over the builder list. -/
def bucketUrls (bb : BuildBotState) (m : String → Option Build) (code : Nat) :
    List String :=
  bb.builders.filterMap (fun builder =>
    match m builder with
    | some b =>
      match b.results with
      | some r => if r = code then some (buildUrl bb builder b) else none
      | none => none
    | none => none)

/-- `BuildBot.test_status` (bors.py:170-215): tri-state verdict plus the
two URL lists.  Result codes: 0 success, 1 warnings, 2 failure,
4 exception; 3 (skipped) and any other code fall into no bucket. -/
def test_status (bb : BuildBotState) (sha : String) :
    Option Bool × List String × List String :=
  match bb.revs sha with
  | some m =>
    let passes := bucketUrls bb m 0
    let warnings := bucketUrls bb m 1
    let failures := bucketUrls bb m 2
    let exceptions := bucketUrls bb m 4
    if failures.length > 0 ∨ exceptions.length > 0 then (some false, failures, exceptions)
    else if passes.length + warnings.length = bb.builders.length then
      (some true, passes, warnings)
    else (none, [], [])
  | none => (none, [], [])

/-- A platform commit status as consumed by the commit-status branch of
`try_advance` (bors.py:650-669). -/
structure CommitStatus where
  state : String
  target_url : String
  deriving DecidableEq

/-- The commit-status aggregation of `try_advance` (bors.py:650-669). -/
def aggCommitStatuses (sts : List CommitStatus) :
    Option Bool × List String × List String :=
  -- the source also builds the `pending` list, used only for logging
  let successes := sts.filter (fun x => x.state == "success")
  let failures := sts.filter (fun x => x.state == "failure")
  let errors := sts.filter (fun x => x.state == "error")
  if sts.length = 0 ∨ successes.length + failures.length + errors.length = 0 then
    (none, [], [])
  else if successes.length > 0 ∧ failures.length + errors.length = 0 then
    (some true, successes.map (fun x => x.target_url), [])
  else
    (some false, failures.map (fun x => x.target_url),
      errors.map (fun x => x.target_url))

/-- A check run as consumed by the checks branch of `try_advance`
(bors.py:626-649). -/
structure CheckRun where
  status : String
  conclusion : String
  html_url : String
  deriving DecidableEq

/-- The check-run aggregation of `try_advance` (bors.py:626-649). -/
def aggCheckRuns (runs : List CheckRun) :
    Option Bool × List String × List String :=
  let successes := runs.filter (fun x => x.status == "completed" && x.conclusion == "success")
  let failures := runs.filter (fun x => x.status == "completed" && x.conclusion == "failure")
  let errors := runs.filter (fun x =>
    x.status == "completed" && !(x.conclusion == "failure" || x.conclusion == "success"))
  if runs.length = 0 ∨ successes.length + failures.length + errors.length = 0 then
    (none, [], [])
  else if successes.length > 0 ∧ runs.length = successes.length then
    (some true, successes.map (fun x => x.html_url), [])
  else
    (some false, failures.map (fun x => x.html_url),
      errors.map (fun x => x.html_url))

/-- The verdict-selection control flow of the `STATE_PENDING` branch
(bors.py:626-672), modelled as the value of the variable `t` (with its URL
lists) after the two conditionals: the first `if` (checks API) assigns it,
and the second `if`/`else` (commit-status API, with the buildbot fallback
as its `else`) unconditionally reassigns it, so the first assignment never
survives. -/
def pendingVerdict (useChecks useStatus : Bool) (runs : List CheckRun)
    (sts : List CommitStatus) (bb : BuildBotState) (mergeSha : String) :
    Option (Option Bool × List String × List String) :=
  let afterChecks : Option (Option Bool × List String × List String) :=
    if useChecks then some (aggCheckRuns runs) else none
  let afterStatus : Option (Option Bool × List String × List String) :=
    if useStatus then some (aggCommitStatuses sts)
    else some (test_status bb mergeSha)
  -- the second conditional does not consult `afterChecks`, exactly as the
  -- `else` in the source is attached to the commit-status `if`
  match afterChecks with
  | _ => afterStatus

/-- A response of the remote HTTP endpoint for one attempt. -/
inductive HttpResp where
  | ok
  | err (code : Nat)
  deriving DecidableEq

/-- The retry loop of `GitHub._http` (github.py:136-176), with `resp`
giving the response of each successive attempt and `budget` the remaining
`nretries`.  Returns the outcome and the number of attempts made.  A 404 is
raised immediately; any other HTTP error decrements the budget and retries,
and is raised when the budget is exhausted. -/
def httpAttempts (resp : Nat → HttpResp) : Nat → Nat → Except Nat Unit × Nat
  | budget, attempt =>
    match resp attempt with
    | HttpResp.ok => (Except.ok (), attempt + 1)
    | HttpResp.err code =>
      if code = 404 then (Except.error code, attempt + 1)
      else
        match budget with
        | Nat.succ b => httpAttempts resp b (attempt + 1)
        | 0 => (Except.error code, attempt + 1)

/-- `GitHub._http` (github.py:136-176): `nretries = 10`, first attempt
index 0. -/
def githubHttp (resp : Nat → HttpResp) : Except Nat Unit × Nat :=
  httpAttempts resp 10 0

/-! ### Claim-side definitions

The following definitions transcribe the words of spec claims (not the
source); each is compared against the corresponding source-side definition
above. -/

/-- Evaluate guarded rules top-to-bottom, first match wins, with a default. -/
def firstMatch : List (Bool × Int) → Int → Int
  | [], d => d
  | (c, v) :: rest, d => if c then v else firstMatch rest d

/-- The inference rules as the spec states them (spec.md §4.1), given the
approval list `al`: closed; error+failure counts exceeding retries;
non-empty disapprovals; a success; strictly-false mergeability; non-empty
approvals split on pending-vs-retries; any comments remaining; otherwise
unreviewed. -/
def claimRules (s : PRState) (al : List String) : List (Bool × Int) :=
  [ (s.closed, STATE_CLOSED),
    (decide (count_errors s + count_failures s > count_retries s), STATE_BAD),
    (decide (disapproval_list s ≠ []), STATE_BAD),
    (decide (0 < count_successes s), STATE_TESTED),
    (decide (s.mergeable = some false), STATE_STALE),
    (decide (al ≠ []) && decide (count_pendings s ≤ count_retries s), STATE_APPROVED),
    (decide (al ≠ []), STATE_PENDING),
    (decide (all_comments s ≠ []), STATE_DISCUSSING) ]

/-- The state the spec's top-to-bottom rules produce. -/
def claimState (s : PRState) (al : List String) : Int :=
  firstMatch (claimRules s al) STATE_UNREVIEWED

/-- Freshness as the spec words it: exactly two parents, one equal to the
current target tip and the other equal to the head SHA. -/
def specFreshPair (g : GitState) (s : PRState) (mergeSha : String) : Bool :=
  match g.parents mergeSha with
  | [a, b] =>
    (a == g.tip s.target_ref && b == s.sha) ||
      (a == s.sha && b == g.tip s.target_ref)
  | _ => false

/-- The first `p=<signed-integer>` token of each head comment. -/
def priorityTokens (s : PRState) : List Int :=
  s.head_comments.filterMap (fun c => searchPToken none c.body)

/-- Priority as the claim words it: the maximum of the contributed
integers, 0 when there are none. -/
def specPriority (s : PRState) : Int :=
  match priorityTokens s with
  | [] => 0
  | v :: vs => vs.foldl max v

/-! ### Concrete states used by counterexamples and witnesses -/

/-- The default approval tokens `["r+", "r=me"]` (bors.py:746). -/
def defaultApprovalTokens : List (List Char) := [['r', '+'], ['r', '=', 'm', 'e']]

/-- The default disapproval tokens `["r-"]` (bors.py:748). -/
def defaultDisapprovalTokens : List (List Char) := [['r', '-']]

/-- A quiescent pull request: one reviewer `alice` (also on the
ignored-users list), default tokens, no comments, no statuses. -/
def basePR : PRState where
  user := "bors"
  reviewers := ["alice"]
  approval_tokens := defaultApprovalTokens
  disapproval_tokens := defaultDisapprovalTokens
  ignored_users := ["alice"]
  sha := "0123456789abcdef0123456789abcdef01234567"
  num := 7
  target_ref := "master"
  test_ref := "auto"
  ref := "feature"
  closed := false
  mergeable := some true
  statuses := []
  head_comments := []
  pull_comments := []
  no_auto_merge := false
  delete_source_branch := false

/-- Remote git state in which the target tip equals the pull request's
head SHA (`"aaaaaaa"`) while the trial-merge commit `"mmmmmmm"` has that
SHA and an unrelated commit `"bbbbbbb"` as parents. -/
def gitDegenerate : GitState where
  tip := fun r => if r = "master" then "aaaaaaa" else if r = "auto" then "mmmmmmm" else ""
  parents := fun c => if c = "mmmmmmm" then ["aaaaaaa", "bbbbbbb"] else []

/-- The pull request living in `gitDegenerate`: its head SHA coincides with
the target tip. -/
def prDegenerate : PRState := { basePR with sha := "aaaaaaa" }

/-- A well-formed landing situation: `test_ref`'s tip `"m3"` is a merge of
the target tip `"t0"` and `basePR`'s head SHA. -/
def gitLanding : GitState where
  tip := fun r => if r = "master" then "t0" else if r = "auto" then "m3" else ""
  parents := fun c =>
    if c = "m3" then ["t0", "0123456789abcdef0123456789abcdef01234567"] else []

/-- A head comment carrying `r=bob abc1234`, which triggers the unbound
variable in `approval_list`'s fourth comprehension. -/
def rEqShaComment : Comment := ⟨1, "alice", "r=bob abc1234".data⟩

/-- `basePR` after `alice` posted `r=bob abc1234` on the head commit. -/
def prREqSha : PRState := { basePR with head_comments := [rEqShaComment] }

/-- `basePR` with a single head comment `p=-5`. -/
def prNegPriority : PRState := { basePR with head_comments := [⟨1, "alice", "p=-5".data⟩] }

/-- `basePR` after the ignored reviewer `alice` posted `r+` on the head
commit (head comments are reviewer-filtered at load, and `alice` is a
reviewer, so the comment is in the stream). -/
def prIgnoredApproval : PRState := { basePR with head_comments := [⟨1, "alice", "r+".data⟩] }

/-- A pull-thread approval whose SHA prefix has only six characters. -/
def prShortShaApproval : PRState :=
  { basePR with pull_comments := [⟨1, "alice", "r+ 012345".data⟩] }

/-- A pull-thread approval with a seven-character SHA prefix. -/
def prSevenShaApproval : PRState :=
  { basePR with pull_comments := [⟨1, "alice", "r+ 0123456".data⟩] }

/-- A one-builder buildbot world where the builder passed revision `"s"`. -/
def bbOnePass : BuildBotState where
  url := "http://bb"
  builders := ["a"]
  revs := fun sha =>
    if sha = "s" then some (fun bl => if bl = "a" then some ⟨some 0, 1⟩ else none)
    else none

/-- A two-builder buildbot world where only builder `"a"` reported (a
pass) on revision `"s"`; builder `"b"` is still missing. -/
def bbOneMissing : BuildBotState where
  url := "http://bb"
  builders := ["a", "b"]
  revs := fun sha =>
    if sha = "s" then some (fun bl => if bl = "a" then some ⟨some 0, 1⟩ else none)
    else none

/-- A commit-status list with one success and one still-pending entry. -/
def stsSuccessPending : List CommitStatus := [⟨"success", "u1"⟩, ⟨"pending", "u2"⟩]

/-! ### Theorems -/

/-- Claim C10: with `use_github_checks_api` enabled and
`use_github_commit_status_api` disabled, the `STATE_PENDING` verdict and
URL lists are exactly the BuildBot aggregation's — the check-run result is
unconditionally overwritten, so check-run data never influences the
outcome. -/
theorem C10_checks_overwritten (runs runsB : List CheckRun) (sts : List CommitStatus)
    (bb : BuildBotState) (m : String) :
    pendingVerdict true false runs sts bb m = some (test_status bb m) ∧
    pendingVerdict true false runs sts bb m = pendingVerdict true false runsB sts bb m :=
  ⟨rfl, rfl⟩

/-- If every attempt in the window returns the same non-404 error, the
retry loop makes all `budget + 1` attempts and then surfaces the error. -/
theorem httpAttempts_const_err (resp : Nat → HttpResp) (c : Nat) (hc : ¬ c = 404) :
    ∀ (b a : Nat), (∀ i, a ≤ i → i ≤ a + b → resp i = HttpResp.err c) →
      httpAttempts resp b a = (Except.error c, a + b + 1) := by
  intro b
  induction b with
  | zero =>
    intro a h
    rw [httpAttempts]
    rw [h a (Nat.le_refl a) (Nat.le_add_right a 0)]
    simp [hc]
  | succ b ih =>
    intro a h
    rw [httpAttempts]
    rw [h a (Nat.le_refl a) (Nat.le_add_right a (b + 1))]
    simp only [hc, if_false]
    have := ih (a + 1) (fun i h1 h2 => h i (Nat.le_of_succ_le h1) (by omega))
    rw [this]
    have harith : a + 1 + b + 1 = a + (b + 1) + 1 := by omega
    rw [harith]

/-- Claim C8 (amended): in `GitHub._http` only a 404 response is surfaced
immediately without retrying; every other HTTP error status — other 4xx
included — is retried up to ten times (eleven attempts in total) with no
backoff before the error is raised. -/
theorem C8_amended (resp : Nat → HttpResp) :
    (resp 0 = HttpResp.err 404 → githubHttp resp = (Except.error 404, 1)) ∧
    (∀ c, ¬ c = 404 → (∀ i, i ≤ 10 → resp i = HttpResp.err c) →
      githubHttp resp = (Except.error c, 11)) := by
  constructor
  · intro h
    rw [githubHttp, httpAttempts, h]
    simp
  · intro c hc h
    rw [githubHttp, httpAttempts_const_err resp c hc 10 0 (fun i _ h2 => h i (by omega))]

/-- Claim C8, counterexample to the statement as written: a request whose
responses are all HTTP 403 — a 4xx other than 404 — is *not* surfaced
without retrying: the loop makes eleven attempts before raising. -/
theorem C8_cex :
    githubHttp (fun _ => HttpResp.err 403) = (Except.error 403, 11) ∧
    (githubHttp (fun _ => HttpResp.err 403)).2 ≠ 1 := by
  constructor
  · rfl
  · decide

/-- Claim C8 witness: the amended theorem applied to an all-500 endpoint
and to an immediate-404 endpoint. -/
theorem C8_witness :
    githubHttp (fun _ => HttpResp.err 404) = (Except.error 404, 1) ∧
    githubHttp (fun _ => HttpResp.err 500) = (Except.error 500, 11) :=
  ⟨(C8_amended (fun _ => HttpResp.err 404)).1 rfl,
   (C8_amended (fun _ => HttpResp.err 500)).2 500 (by decide) (fun i _ => rfl)⟩

/-- Claim C6: a head comment `r=bob abc1234` (matching
`r=<name> <sha-prefix>`) makes `approval_list` raise `NameError` — the
fourth comprehension tests `u in self.reviewers` with `u` unbound in its
scope — instead of terminating and nominating `bob`. -/
theorem C6_bug : approval_list prREqSha = Except.error () := by rfl

/-- Folding max over per-comment matches equals folding max over the list
of matches. -/
theorem foldl_max_filterMap (f : Comment → Option Int) (l : List Comment) :
    ∀ i : Int,
      l.foldl (fun p c => match f c with | some v => max p v | none => p) i
        = (l.filterMap f).foldl max i := by
  induction l with
  | nil => intro i; rfl
  | cons c cs ih =>
    intro i
    cases h : f c <;> simp [List.filterMap_cons, h, ih]

/-- Claim C7 (amended): the priority is the maximum of 0 and the integers
contributed by the head comments' first `p=<signed-integer>` tokens — the
fold starts at 0, so the default applies even when tokens exist and they
are all negative. -/
theorem C7_amended (s : PRState) : priority s = (priorityTokens s).foldl max 0 :=
  foldl_max_filterMap _ s.head_comments 0

/-- Claim C7, counterexample to the statement as written: a PR whose only
priority token is `p=-5` has contributed-integer maximum `-5`, but the
computed priority is 0. -/
theorem C7_cex :
    priority prNegPriority = 0 ∧ specPriority prNegPriority = -5 ∧
    priorityTokens prNegPriority = [-5] := by
  refine ⟨rfl, rfl, rfl⟩

/-- `fresh` spelled out: two parents with the target tip and head SHA both
among them. -/
theorem fresh_iff (g : GitState) (s : PRState) (m : String) :
    fresh g s m = true ↔
      ((g.parents m).length = 2 ∧ g.tip s.target_ref ∈ g.parents m ∧
        s.sha ∈ g.parents m) := by
  simp [fresh, Bool.and_eq_true, List.contains, List.elem_iff, beq_iff_eq, and_assoc]

/-- Membership of two distinct values in a two-element list forces the two
matching arrangements. -/
theorem twoMem_iff_pair (a b t h : String) (hne : ¬ t = h) :
    (t ∈ [a, b] ∧ h ∈ [a, b]) ↔ ((a = t ∧ b = h) ∨ (a = h ∧ b = t)) := by
  simp only [List.mem_cons, List.not_mem_nil, or_false]
  constructor
  · rintro ⟨h1 | h1, h2 | h2⟩
    · exact absurd (h1.trans h2.symm) hne
    · exact Or.inl ⟨h1.symm, h2.symm⟩
    · exact Or.inr ⟨h2.symm, h1.symm⟩
    · exact absurd (h1.trans h2.symm) hne
  · rintro (⟨rfl, rfl⟩ | ⟨rfl, rfl⟩)
    · exact ⟨Or.inl rfl, Or.inr rfl⟩
    · exact ⟨Or.inr rfl, Or.inl rfl⟩

/-- Claim C2 (amended): in state PENDING the candidate is the tip of
`test_ref`, and CI is consulted exactly when the candidate has two parents
with the current target tip and the head SHA both *among* them — a
membership test, not a pairing, so when the target tip coincides with the
head SHA one matching parent satisfies it even though the other parent
differs; whenever the target tip differs from the head SHA the membership
test agrees with the spec's one-parent-each reading. -/
theorem C2_amended (g : GitState) (s : PRState) :
    (tryAdvancePending g s = PendingStep.consultCI (g.tip s.test_ref) ↔
      ((g.parents (g.tip s.test_ref)).length = 2 ∧
        g.tip s.target_ref ∈ g.parents (g.tip s.test_ref) ∧
        s.sha ∈ g.parents (g.tip s.test_ref))) ∧
    (∀ c, tryAdvancePending g s = PendingStep.consultCI c → c = g.tip s.test_ref) ∧
    (¬ g.tip s.target_ref = s.sha →
      (tryAdvancePending g s = PendingStep.consultCI (g.tip s.test_ref) ↔
        specFreshPair g s (g.tip s.test_ref) = true)) := by
  have hmain : tryAdvancePending g s = PendingStep.consultCI (g.tip s.test_ref) ↔
      ((g.parents (g.tip s.test_ref)).length = 2 ∧
        g.tip s.target_ref ∈ g.parents (g.tip s.test_ref) ∧
        s.sha ∈ g.parents (g.tip s.test_ref)) := by
    rw [← fresh_iff]
    unfold tryAdvancePending
    by_cases hf : fresh g s (g.tip s.test_ref) = true <;> simp [hf]
  refine ⟨hmain, ?_, ?_⟩
  · intro c hc
    unfold tryAdvancePending at hc
    by_cases hf : fresh g s (g.tip s.test_ref) = true
    · rw [if_pos hf] at hc
      exact (PendingStep.consultCI.injEq _ _).mp hc.symm
    · rw [if_neg hf] at hc
      exact absurd hc (by simp)
  · intro hne
    rw [hmain]
    rcases hl : g.parents (g.tip s.test_ref) with _ | ⟨a, _ | ⟨b, _ | ⟨c, t⟩⟩⟩
    · simp [specFreshPair, hl]
    · simp [specFreshPair, hl]
    · constructor
      · rintro ⟨-, hm⟩
        have hp := (twoMem_iff_pair a b _ _ hne).mp hm
        simp only [specFreshPair, hl, Bool.or_eq_true, Bool.and_eq_true, beq_iff_eq]
        exact hp
      · intro hsp
        refine ⟨rfl, ?_⟩
        apply (twoMem_iff_pair a b _ _ hne).mpr
        simpa only [specFreshPair, hl, Bool.or_eq_true, Bool.and_eq_true,
          beq_iff_eq] using hsp
    · simp [specFreshPair, hl]

/-- Claim C2, counterexample to the statement as written: with the target
tip equal to the head SHA (`"aaaaaaa"`) and the candidate's parents
`["aaaaaaa", "bbbbbbb"]`, one parent differs from both the target tip and
the head SHA, yet the PENDING advance consults CI instead of restarting
the trial merge. -/
theorem C2_cex :
    tryAdvancePending gitDegenerate prDegenerate = PendingStep.consultCI "mmmmmmm" ∧
    gitDegenerate.tip prDegenerate.target_ref = prDegenerate.sha ∧
    specFreshPair gitDegenerate prDegenerate "mmmmmmm" = false := by
  refine ⟨rfl, rfl, rfl⟩

/-- Claim C2 witness: the amended theorem applied to the well-formed
landing world. -/
theorem C2_witness :
    tryAdvancePending gitLanding basePR = PendingStep.consultCI (gitLanding.tip basePR.test_ref) ∧
    "m3" = gitLanding.tip basePR.test_ref ∧
    specFreshPair gitLanding basePR (gitLanding.tip basePR.test_ref) = true :=
  ⟨((C2_amended gitLanding basePR).1).mpr (by decide),
   (C2_amended gitLanding basePR).2.1 "m3" (by decide),
   (((C2_amended gitLanding basePR).2.2 (by decide)).mp
     (((C2_amended gitLanding basePR).1).mpr (by decide)))⟩

/-- Claim C3 (amended): when a TESTED pull request is advanced with
merging allowed and freshness holding and the non-force update of
`target_ref` succeeds, the integrator deletes `test_ref` (failure
swallowed) and, if configured, the source branch — but it never closes the
pull request: no close capability is invoked anywhere on the success path
(the source relies on the platform closing the PR when the target branch
reaches the merge commit). -/
theorem C3_amended (g : GitState) (s : PRState) (m : String)
    (hAllow : merge_allowed s = true) (hFresh : fresh g s m = true) :
    Action.patchRef s.target_ref m false ∈ tryAdvanceTested g s m true ∧
    Action.deleteRef s.test_ref ∈ tryAdvanceTested g s m true ∧
    (s.delete_source_branch = true → Action.deleteRef s.ref ∈ tryAdvanceTested g s m true) ∧
    ∀ n, Action.closePull n ∉ tryAdvanceTested g s m true := by
  unfold tryAdvanceTested advance_target_ref_to_test
  rw [hAllow, hFresh]
  by_cases hd : s.delete_source_branch = true <;> simp [hd]

/-- Claim C3, counterexample to the statement as written: on a successful
landing the complete trace of remote writes is the non-force patch, a
comment and the `test_ref` deletion — no close of the pull request
appears. -/
theorem C3_cex :
    tryAdvanceTested gitLanding basePR "m3" true =
      [Action.patchRef "master" "m3" false,
       Action.addComment "0123456789abcdef0123456789abcdef01234567",
       Action.deleteRef "auto"] ∧
    Action.closePull 7 ∉ tryAdvanceTested gitLanding basePR "m3" true := by
  refine ⟨rfl, by decide⟩

/-- Claim C3 witness: the amended theorem applied to the landing world. -/
theorem C3_witness :
    Action.patchRef basePR.target_ref "m3" false ∈ tryAdvanceTested gitLanding basePR "m3" true ∧
    Action.closePull 5 ∉ tryAdvanceTested gitLanding basePR "m3" true :=
  ⟨(C3_amended gitLanding basePR "m3" (by decide) (by decide)).1,
   (C3_amended gitLanding basePR "m3" (by decide) (by decide)).2.2.2 5⟩

/-- The length of a `filterMap` counts the elements with a value. -/
theorem length_filterMap_countP {α β : Type} (f : α → Option β) (l : List α) :
    (l.filterMap f).length = l.countP (fun a => (f a).isSome) := by
  induction l with
  | nil => rfl
  | cons a l ih => cases h : f a <;> simp [List.filterMap_cons, h, List.countP_cons, ih]

/-- Two pointwise-exclusive counts add up to the count of the disjunction. -/
theorem countP_add_disjoint {α : Type} (p q : α → Bool) (l : List α)
    (h : ∀ a ∈ l, ¬(p a = true ∧ q a = true)) :
    l.countP p + l.countP q = l.countP (fun a => p a || q a) := by
  induction l with
  | nil => rfl
  | cons a l ih =>
    have ha := h a (List.mem_cons_self a l)
    have hrest := ih (fun x hx => h x (List.mem_cons_of_mem a hx))
    by_cases hp : p a = true <;> by_cases hq : q a = true
    · exact absurd ⟨hp, hq⟩ ha
    · simp [List.countP_cons, hp, hq]
      omega
    · simp [List.countP_cons, hp, hq]
      omega
    · simp [List.countP_cons, hp, hq]
      omega

/-- Counts are invariant under pointwise-equal predicates. -/
theorem countP_congr_mem {α : Type} (p q : α → Bool) (l : List α)
    (h : ∀ a ∈ l, p a = q a) : l.countP p = l.countP q := by
  induction l with
  | nil => rfl
  | cons a l ih =>
    have := h a (List.mem_cons_self a l)
    simp [List.countP_cons, this, ih (fun x hx => h x (List.mem_cons_of_mem a hx))]

/-- A builder lands in the bucket for `code` exactly when its recorded
result is `code`. -/
theorem bucketUrls_length (bb : BuildBotState) (m : String → Option Build) (code : Nat) :
    (bucketUrls bb m code).length =
      bb.builders.countP (fun bl => resultOf m bl == some code) := by
  rw [bucketUrls, length_filterMap_countP]
  apply countP_congr_mem
  intro bl _
  cases hm : m bl with
  | none => simp [resultOf, hm]
  | some b =>
    cases hr : b.results with
    | none => simp [resultOf, hm, hr]
    | some r =>
      by_cases hrc : r = code <;> simp [resultOf, hm, hr, hrc]

/-- A bucket is empty when no builder has its result code. -/
theorem bucketUrls_eq_nil (bb : BuildBotState) (m : String → Option Build) (code : Nat)
    (h : ∀ bl ∈ bb.builders, ¬ resultOf m bl = some code) :
    bucketUrls bb m code = [] := by
  rw [bucketUrls, List.filterMap_eq_nil_iff]
  intro bl hbl
  have hn := h bl hbl
  cases hm : m bl with
  | none => rfl
  | some b =>
    cases hr : b.results with
    | none => simp [hr]
    | some r =>
      by_cases hrc : r = code
      · exact absurd (by simp [resultOf, hm, hr, hrc]) hn
      · simp [hr, hrc]

/-- A filter has positive length exactly when a member satisfies it. -/
theorem filter_length_pos_iff {α : Type} (p : α → Bool) (l : List α) :
    0 < (l.filter p).length ↔ ∃ x ∈ l, p x = true := by
  constructor
  · intro h
    obtain ⟨x, hx⟩ := List.exists_mem_of_ne_nil _ (List.length_pos.mp h)
    obtain ⟨h1, h2⟩ := List.mem_filter.mp hx
    exact ⟨x, h1, h2⟩
  · rintro ⟨x, hx, hp⟩
    exact List.length_pos.mpr (List.ne_nil_of_mem (List.mem_filter.mpr ⟨hx, hp⟩))

/-- A filter has length zero exactly when no member satisfies it. -/
theorem filter_length_zero_iff {α : Type} (p : α → Bool) (l : List α) :
    (l.filter p).length = 0 ↔ ∀ x ∈ l, ¬ p x = true := by
  rw [List.length_eq_zero, List.filter_eq_nil_iff]

/-- Claim C4 (amended): the BuildBot aggregation behaves as the claim says
— pass only when every configured builder has reported a pass or
pass-with-warnings result, and with no fail/exception results a missing
builder leaves the verdict waiting; the commit-status aggregation of the
PENDING branch, however, returns pass exactly when at least one `success`
entry and no `failure`/`error` entries exist, so still-`pending` entries do
not keep it waiting. -/
theorem C4_amended :
    (∀ (bb : BuildBotState) (sha : String) (m : String → Option Build),
      bb.revs sha = some m →
      (test_status bb sha).1 = some true →
      ∀ bl ∈ bb.builders, resultOf m bl = some 0 ∨ resultOf m bl = some 1) ∧
    (∀ (bb : BuildBotState) (sha : String) (m : String → Option Build),
      bb.revs sha = some m →
      (∀ bl ∈ bb.builders, ¬ resultOf m bl = some 2 ∧ ¬ resultOf m bl = some 4) →
      (∃ bl ∈ bb.builders, resultOf m bl = none) →
      test_status bb sha = (none, [], [])) ∧
    (∀ sts : List CommitStatus,
      (aggCommitStatuses sts).1 = some true ↔
        (∃ x ∈ sts, x.state = "success") ∧
        ∀ x ∈ sts, ¬ x.state = "failure" ∧ ¬ x.state = "error") := by
  refine ⟨?_, ?_, ?_⟩
  · intro bb sha m hM hT bl hbl
    simp only [test_status, hM] at hT
    split_ifs at hT with h1 h2
    · simp at hT
    · rw [bucketUrls_length, bucketUrls_length] at h2
      rw [countP_add_disjoint _ _ _ (by
        intro x _ hx
        have h0 : resultOf m x = some 0 := by simpa using hx.1
        have h1x : resultOf m x = some 1 := by simpa using hx.2
        rw [h0] at h1x
        simp at h1x)] at h2
      have := List.countP_eq_length.mp h2 bl hbl
      simpa [Bool.or_eq_true, beq_iff_eq] using this
  · intro bb sha m hM hNoFail hMiss
    obtain ⟨bl0, hbl0, hres0⟩ := hMiss
    have hfail : bucketUrls bb m 2 = [] :=
      bucketUrls_eq_nil bb m 2 (fun bl hbl => (hNoFail bl hbl).1)
    have hexc : bucketUrls bb m 4 = [] :=
      bucketUrls_eq_nil bb m 4 (fun bl hbl => (hNoFail bl hbl).2)
    have hneq : ¬((bucketUrls bb m 0).length + (bucketUrls bb m 1).length
        = bb.builders.length) := by
      rw [bucketUrls_length, bucketUrls_length]
      rw [countP_add_disjoint _ _ _ (by
        intro x _ hx
        have h0 : resultOf m x = some 0 := by simpa using hx.1
        have h1x : resultOf m x = some 1 := by simpa using hx.2
        rw [h0] at h1x
        simp at h1x)]
      intro hEq
      have := List.countP_eq_length.mp hEq bl0 hbl0
      rw [hres0] at this
      simp at this
    simp only [test_status, hM, hfail, hexc]
    rw [if_neg (by simp), if_neg hneq]
  · intro sts
    simp only [aggCommitStatuses]
    split_ifs with h1 h2
    · constructor
      · intro h; exact absurd h (by simp)
      · rintro ⟨⟨x, hx, hsx⟩, hall⟩
        exfalso
        rcases h1 with h1 | h1
        · rw [List.length_eq_zero] at h1
          rw [h1] at hx
          exact absurd hx (List.not_mem_nil x)
        · have hs0 : ((sts.filter (fun x => x.state == "success")).length) = 0 := by omega
          exact (filter_length_zero_iff _ _).mp hs0 x hx (by simp [hsx])
    · constructor
      · intro _
        obtain ⟨hpos, hzero⟩ := h2
        constructor
        · obtain ⟨x, hx, hp⟩ := (filter_length_pos_iff _ _).mp hpos
          exact ⟨x, hx, by simpa using hp⟩
        · intro x hx
          have hf : ((sts.filter (fun x => x.state == "failure")).length) = 0 := by omega
          have he : ((sts.filter (fun x => x.state == "error")).length) = 0 := by omega
          constructor
          · intro hc
            exact (filter_length_zero_iff _ _).mp hf x hx (by simp [hc])
          · intro hc
            exact (filter_length_zero_iff _ _).mp he x hx (by simp [hc])
      · intro _; rfl
    · constructor
      · intro h; exact absurd h (by simp)
      · rintro ⟨⟨x, hx, hsx⟩, hall⟩
        exfalso
        apply h2
        constructor
        · exact (filter_length_pos_iff _ _).mpr ⟨x, hx, by simp [hsx]⟩
        · have hf : ((sts.filter (fun x => x.state == "failure")).length) = 0 := by
            rw [filter_length_zero_iff]
            intro y hy hc
            exact (hall y hy).1 (by simpa using hc)
          have he : ((sts.filter (fun x => x.state == "error")).length) = 0 := by
            rw [filter_length_zero_iff]
            intro y hy hc
            exact (hall y hy).2 (by simpa using hc)
          omega

/-- Claim C4, counterexample to the statement as written: a revision with
one `success` and one still-`pending` commit status — no fail or
fail-auxiliary entry, one check unreported — gets verdict pass, not
waiting. -/
theorem C4_cex :
    aggCommitStatuses stsSuccessPending = (some true, ["u1"], []) ∧
    (∃ x ∈ stsSuccessPending, x.state = "pending") ∧
    (∀ x ∈ stsSuccessPending, ¬ x.state = "failure" ∧ ¬ x.state = "error") ∧
    ¬ (aggCommitStatuses stsSuccessPending).1 = none := by
  refine ⟨rfl, ⟨⟨"pending", "u2"⟩, by decide, rfl⟩, by decide, by decide⟩

/-- Claim C4 witness: the amended theorem applied to concrete worlds — a
passing one-builder revision, a two-builder revision with a missing
builder, and the success-plus-pending status list. -/
theorem C4_witness :
    (resultOf (fun bl => if bl = "a" then some ⟨some 0, 1⟩ else none) "a" = some 0 ∨
      resultOf (fun bl => if bl = "a" then some ⟨some 0, 1⟩ else none) "a" = some 1) ∧
    test_status bbOneMissing "s" = (none, [], []) ∧
    (aggCommitStatuses stsSuccessPending).1 = some true := by
  refine ⟨?_, ?_, ?_⟩
  · exact C4_amended.1 bbOnePass "s" _ rfl (by decide) "a" (by decide)
  · exact C4_amended.2.1 bbOneMissing "s" _ rfl (by decide)
      ⟨"b", by decide, by decide⟩
  · exact (C4_amended.2.2 stsSuccessPending).mpr
      ⟨⟨⟨"success", "u1"⟩, by decide, rfl⟩, by decide⟩

/-- A SHA character is not whitespace. -/
theorem shaChar_not_space (c : Char) (h : isShaChar c = true) : isSpaceChar c = false := by
  cases h2 : isSpaceChar c with
  | false => rfl
  | true =>
    exfalso
    rw [isSpaceChar] at h2
    simp only [Bool.or_eq_true, beq_iff_eq] at h2
    rcases h2 with ((((rfl | rfl) | rfl) | rfl) | rfl) | rfl <;> exact absurd h (by decide)

/-- A list is a `isPrefixOf`-prefix of itself extended by anything. -/
theorem isPrefixOf_self_append (l t : List Char) : l.isPrefixOf (l ++ t) = true := by
  induction l with
  | nil => simp [List.isPrefixOf]
  | cons a as ih => simp [List.isPrefixOf, ih]

/-- On a body of the exact shape `<token> <sha-run>` with a run of 7 to 40
SHA characters, a single alternative captures the whole run. -/
theorem tokenShaCap1_exact (t x : List Char)
    (hx : ∀ ch ∈ x, isShaChar ch = true)
    (h7 : 7 ≤ x.length) (h40 : x.length ≤ 40) :
    tokenShaCap1 t (t ++ ' ' :: x) = some x := by
  obtain ⟨c0, x', rfl⟩ : ∃ c0 x', x = c0 :: x' := by
    cases x with
    | nil => simp at h7
    | cons a b => exact ⟨a, b, rfl⟩
  have hc0 : isShaChar c0 = true := hx c0 (List.mem_cons_self _ _)
  have hsp : isSpaceChar ' ' = true := by decide
  have htw : (c0 :: x').takeWhile isSpaceChar = [] := by
    rw [List.takeWhile_cons, shaChar_not_space c0 hc0]
    simp
  have hrun : (c0 :: x').takeWhile isShaChar = c0 :: x' :=
    List.takeWhile_eq_self_iff.mpr hx
  have htake : (c0 :: x').take 40 = c0 :: x' := List.take_of_length_le h40
  rw [tokenShaCap1, if_pos (isPrefixOf_self_append t (' ' :: c0 :: x'))]
  simp only [List.drop_left, List.takeWhile_cons, hsp, if_true, htw]
  simp only [List.isEmpty_cons, Bool.false_eq_true, if_false, List.length_cons,
    List.length_nil, List.drop_succ_cons, List.drop_zero, hrun]
  rw [if_pos (show 7 ≤ x'.length + 1 by simpa using h7), htake]

/-- On a body of the exact shape `<token> <sha-run>` with a default token
and a run of 7 to 40 SHA characters, the full matcher captures the whole
run. -/
theorem tokenShaCapture_default (tok x : List Char)
    (ht : tok = ['r', '+'] ∨ tok = ['r', '=', 'm', 'e'])
    (hx : ∀ ch ∈ x, isShaChar ch = true)
    (h7 : 7 ≤ x.length) (h40 : x.length ≤ 40) :
    tokenShaCapture defaultApprovalTokens (tok ++ ' ' :: x) = some x := by
  have hexact := tokenShaCap1_exact tok x hx h7 h40
  rcases ht with rfl | rfl
  · rw [tokenShaCapture, defaultApprovalTokens, List.findSome?_cons, hexact]
  · have hnot : tokenShaCap1 ['r', '+'] (['r', '=', 'm', 'e'] ++ ' ' :: x)
        = none := by
      have hfalse : ['r', '+'].isPrefixOf (['r', '=', 'm', 'e'] ++ ' ' :: x) = false := rfl
      rw [tokenShaCap1, hfalse]
      simp
    rw [tokenShaCapture, defaultApprovalTokens, List.findSome?_cons, hnot,
      List.findSome?_cons, hexact]

/-- Claim C5 (amended): a pull-thread comment from a reviewer of the exact
shape `<approval-token> <X>` with `X` a run of SHA characters counts as an
approval if and only if `X` is a prefix of `head_sha` — provided `X` has
at least 7 characters (and at most 40), the bounds hard-wired in the
`[a-z0-9]{7,40}` of the matcher; shorter prefixes never count, even when
they do prefix `head_sha`. -/
theorem C5_amended (s : PRState) (d : Nat) (u : String) (tok x : List Char)
    (htok : s.approval_tokens = defaultApprovalTokens)
    (hh : s.head_comments = [])
    (hp : s.pull_comments = [⟨d, u, tok ++ ' ' :: x⟩])
    (ht : tok = ['r', '+'] ∨ tok = ['r', '=', 'm', 'e'])
    (hu : s.reviewers.contains u = true)
    (hx : ∀ ch ∈ x, isShaChar ch = true)
    (h7 : 7 ≤ x.length) (h40 : x.length ≤ 40) :
    approval_list s = Except.ok (if x.isPrefixOf s.sha.data = true then [u] else []) := by
  have hcap := tokenShaCapture_default tok x ht hx h7 h40
  rw [approval_list, hh, hp, htok]
  simp only [List.filter_nil, List.map_nil, List.filterMap_nil, List.any_nil,
    List.filterMap_cons, List.filterMap_nil, hcap, hu, Bool.true_and,
    Bool.false_eq_true, if_false, List.nil_append]
  cases hb : x.isPrefixOf s.sha.data with
  | false => simp [hb]
  | true => simp [hb]

/-- Claim C5, counterexample to the statement as written: the six-character
prefix `012345` of `head_sha`, posted by the reviewer `alice` as
`r+ 012345`, is a SHA prefix of the head SHA yet yields no approval — the
matcher requires at least seven characters. -/
theorem C5_cex :
    approval_list prShortShaApproval = Except.ok [] ∧
    List.isPrefixOf "012345".data prShortShaApproval.sha.data = true ∧
    prShortShaApproval.reviewers.contains "alice" = true := by
  refine ⟨rfl, rfl, rfl⟩

/-- Claim C5 witness: the amended theorem applied to the seven-character
approval `r+ 0123456`, which does approve. -/
theorem C5_witness : approval_list prSevenShaApproval = Except.ok ["alice"] := by
  have h := C5_amended prSevenShaApproval 1 "alice" ['r', '+']
    ['0', '1', '2', '3', '4', '5', '6'] rfl rfl (by decide) (Or.inl rfl) (by decide)
    (by decide) (by decide) (by decide)
  simpa using h

/-- Membership in an insertion. -/
theorem mem_insertByDate (x c : Comment) (l : List Comment) :
    x ∈ insertByDate c l ↔ x = c ∨ x ∈ l := by
  induction l with
  | nil => simp [insertByDate]
  | cons d ds ih =>
    rw [insertByDate]
    by_cases h : c.date ≤ d.date
    · simp [h]
    · simp only [h, if_false, List.mem_cons, ih]
      tauto

/-- Insertion preserves date-sortedness. -/
theorem pairwise_insertByDate (c : Comment) (l : List Comment)
    (hl : l.Pairwise (fun a b => a.date ≤ b.date)) :
    (insertByDate c l).Pairwise (fun a b => a.date ≤ b.date) := by
  induction l with
  | nil => simp [insertByDate]
  | cons d ds ih =>
    rcases List.pairwise_cons.mp hl with ⟨hd, hds⟩
    rw [insertByDate]
    by_cases h : c.date ≤ d.date
    · rw [if_pos h]
      refine List.pairwise_cons.mpr ⟨?_, hl⟩
      intro y hy
      rcases List.mem_cons.mp hy with rfl | hy2
      · exact h
      · exact le_trans h (hd y hy2)
    · rw [if_neg h]
      refine List.pairwise_cons.mpr ⟨?_, ih hds⟩
      intro y hy
      rcases (mem_insertByDate y c ds).mp hy with rfl | hy2
      · exact le_of_not_le h
      · exact hd y hy2

/-- Inserting an element below every entry of a list prepends it. -/
theorem insertByDate_eq_cons (c : Comment) (l : List Comment)
    (h : ∀ y ∈ l, c.date ≤ y.date) : insertByDate c l = c :: l := by
  cases l with
  | nil => rfl
  | cons d ds => rw [insertByDate, if_pos (h d (List.mem_cons_self d ds))]

/-- Filtering commutes with insertion into a sorted list. -/
theorem filter_insertByDate (p : Comment → Bool) (c : Comment) (l : List Comment)
    (hl : l.Pairwise (fun a b => a.date ≤ b.date)) :
    (insertByDate c l).filter p =
      if p c then insertByDate c (l.filter p) else l.filter p := by
  induction l with
  | nil => cases hc : p c <;> simp [insertByDate, List.filter, hc]
  | cons d ds ih =>
    rcases List.pairwise_cons.mp hl with ⟨hd, hds⟩
    rw [insertByDate]
    by_cases h : c.date ≤ d.date
    · rw [if_pos h]
      cases hc : p c with
      | true =>
        have hcons : insertByDate c ((d :: ds).filter p) = c :: (d :: ds).filter p := by
          apply insertByDate_eq_cons
          intro y hy
          rcases List.mem_cons.mp (List.mem_of_mem_filter hy) with rfl | hy2
          · exact h
          · exact le_trans h (hd y hy2)
        rw [List.filter_cons_of_pos hc, if_pos rfl, hcons]
      | false => simp [List.filter_cons, hc]
    · rw [if_neg h]
      have hih := ih hds
      cases hc : p c <;> cases hdp : p d <;>
        simp [List.filter_cons, hc, hdp, hih, insertByDate, h]

/-- Filtering commutes with the insertion-sort fold, given a sorted
accumulator. -/
theorem filter_sortFold (p : Comment → Bool) (l : List Comment) :
    ∀ acc, acc.Pairwise (fun a b => a.date ≤ b.date) →
      (l.foldl (fun acc c => insertByDate c acc) acc).filter p =
        (l.filter p).foldl (fun acc c => insertByDate c acc) (acc.filter p) := by
  induction l with
  | nil => intro acc _; rfl
  | cons c cs ih =>
    intro acc hacc
    rw [List.foldl_cons, ih _ (pairwise_insertByDate c acc hacc),
      filter_insertByDate p c acc hacc]
    cases hc : p c with
    | true => rw [List.filter_cons_of_pos hc, if_pos rfl, List.foldl_cons]
    | false => rw [List.filter_cons_of_neg (by simp [hc]), if_neg (by simp)]

/-- The stable date sort commutes with filtering. -/
theorem sortByDate_filter (p : Comment → Bool) (l : List Comment) :
    (sortByDate l).filter p = sortByDate (l.filter p) :=
  filter_sortFold p l [] List.Pairwise.nil

/-- Claim C9 (amended): a comment by an author on
`ignored_users_in_comments` is filtered out of the *merged* comment stream
only: `all_comments` — hence the DISCUSSING test and the last-comment
snapshot field — is unchanged by adding such a comment to either stream.
The approval list, disapproval list, retry count and priority read the raw
streams and are not protected. -/
theorem C9_amended (s : PRState) (c : Comment)
    (h : s.ignored_users.contains c.author = true) :
    all_comments { s with head_comments := s.head_comments ++ [c] } = all_comments s ∧
    all_comments { s with pull_comments := s.pull_comments ++ [c] } = all_comments s := by
  have hkeep : (!(s.ignored_users.contains c.author)) = false := by rw [h]; rfl
  constructor <;>
  · rw [all_comments, all_comments, sortByDate_filter, sortByDate_filter]
    congr 1
    simp only [List.filter_append, List.filter_cons, List.filter_nil, hkeep,
      Bool.false_eq_true, if_false, List.append_nil, List.nil_append]

/-- Claim C9, counterexample to the statement as written: `alice` is on
the ignored-users list, yet adding her head comment `r+` changes the
approval list (NameError-free here) and moves the inferred state from
UNREVIEWED to APPROVED — the approval machinery reads the unfiltered
streams. -/
theorem C9_cex :
    basePR.ignored_users.contains "alice" = true ∧
    prIgnoredApproval =
      { basePR with head_comments := basePR.head_comments ++ [⟨1, "alice", "r+".data⟩] } ∧
    approval_list prIgnoredApproval = Except.ok ["alice"] ∧
    approval_list basePR = Except.ok [] ∧
    current_state prIgnoredApproval = Except.ok STATE_APPROVED ∧
    current_state basePR = Except.ok STATE_UNREVIEWED ∧
    STATE_APPROVED ≠ STATE_UNREVIEWED := by
  refine ⟨rfl, rfl, rfl, rfl, rfl, rfl, by decide⟩

/-- Claim C9 witness: the amended theorem applied to `basePR` and an
ignored-author comment. -/
theorem C9_witness :
    all_comments { basePR with head_comments := basePR.head_comments ++ [⟨5, "alice", []⟩] }
      = all_comments basePR ∧
    all_comments { basePR with pull_comments := basePR.pull_comments ++ [⟨5, "alice", []⟩] }
      = all_comments basePR :=
  C9_amended basePR ⟨5, "alice", []⟩ (by decide)

/-- Claim C1: whenever the approval list evaluates without error, the
inferred state of `current_state` is exactly what the spec's rules,
evaluated top-to-bottom with the first match winning, produce: closed →
CLOSED; errors+failures > retries → BAD; disapprovals → BAD; a success →
TESTED; mergeable strictly false → BAD/STALE; approvals non-empty →
APPROVED when pending ≤ retries else PENDING; any comments remaining →
DISCUSSING; otherwise UNREVIEWED. -/
theorem C1_state_rules (s : PRState) (al : List String)
    (h : approval_list s = Except.ok al) :
    current_state s = Except.ok (claimState s al) := by
  by_cases h1 : s.closed = true
  · simp [current_state, claimState, claimRules, firstMatch, h, h1]
  by_cases h2 : count_errors s + count_failures s > count_retries s
  · simp [current_state, claimState, claimRules, firstMatch, h, h1, h2]
  by_cases h3 : disapproval_list s ≠ []
  · simp [current_state, claimState, claimRules, firstMatch, h, h1, h2, h3,
      List.length_eq_zero]
  by_cases h4 : count_successes s ≠ 0
  · simp [current_state, claimState, claimRules, firstMatch, h, h1, h2, h3, h4,
      List.length_eq_zero, Nat.pos_iff_ne_zero]
  by_cases h5 : s.mergeable = some false
  · simp [current_state, claimState, claimRules, firstMatch, h, h1, h2, h3, h4, h5,
      List.length_eq_zero, Nat.pos_iff_ne_zero]
  by_cases h6 : al ≠ []
  · by_cases h7 : count_pendings s ≤ count_retries s
    · simp [current_state, claimState, claimRules, firstMatch, h, h1, h2, h3, h4, h5,
        h6, h7, List.length_eq_zero, Nat.pos_iff_ne_zero]
    · simp [current_state, claimState, claimRules, firstMatch, h, h1, h2, h3, h4, h5,
        h6, h7, List.length_eq_zero, Nat.pos_iff_ne_zero]
  by_cases h8 : all_comments s ≠ []
  · simp [current_state, claimState, claimRules, firstMatch, h, h1, h2, h3, h4, h5,
      h6, h8, List.length_eq_zero, Nat.pos_iff_ne_zero]
  · simp [current_state, claimState, claimRules, firstMatch, h, h1, h2, h3, h4, h5,
      h6, h8, List.length_eq_zero, Nat.pos_iff_ne_zero]

/-- Claim C1 witness: the rule evaluation applied to the quiescent pull
request, whose approval list evaluates to `[]`. -/
theorem C1_witness : current_state basePR = Except.ok (claimState basePR []) :=
  C1_state_rules basePR [] rfl

end Bors
